import Mathlib

/-!
Verification of the typing-practice scoring engine.

This file gives a shallow embedding of the session scoring engine of the
typing-practice application: the per-attempt session state
(src/core/models.py, TypingSession), the target/typed diff, the
WPM and accuracy formulas with backspace penalties, the backspace /
strict-mode key interception, the completion logic
(src/ui/main_window.py), the index clamping helper, and the bounded
session-history store (src/core/persistence.py).

Python float arithmetic is modelled exactly over the rationals, and
Python int() truncation is modelled by intTrunc. Python dictionaries are
modelled as association lists. The Qt event flow relevant to the claims
is modelled as a small labelled transition system: a key event first
passes the eventFilter, then (unless consumed or the widget is
read-only) mutates the text-edit content, which fires on_text_changed.
-/

namespace PyTyping

/-- Association-list read with default, mirroring Python dict.get(k, d). -/
def dictGet (m : List (List Char × ℕ)) (k : List Char) (d : ℕ) : ℕ :=
  match m with
  | [] => d
  | (k2, v) :: rest => if k2 = k then v else dictGet rest k d

/-- Association-list write, mirroring Python dict assignment m[k] = v. -/
def dictSet (m : List (List Char × ℕ)) (k : List Char) (v : ℕ) :
    List (List Char × ℕ) :=
  match m with
  | [] => [(k, v)]
  | (k2, v2) :: rest => if k2 = k then (k, v) :: rest else (k2, v2) :: dictSet rest k v

/-- Per-attempt session state, from src/core/models.py (class TypingSession).
Timestamps are rationals; a Python str is a list of characters; the
key_errors dict is an association list keyed by the expected string. -/
structure TypingSession where
  typed_text : List Char
  start_time : Option ℚ
  errors : ℕ
  is_active : Bool
  backspace_count : ℕ
  key_errors : List (List Char × ℕ)
deriving DecidableEq

/-- Field defaults of the TypingSession dataclass. -/
def TypingSession.init : TypingSession :=
  { typed_text := []
    start_time := none
    errors := 0
    is_active := false
    backspace_count := 0
    key_errors := [] }

/-- TypingSession.reset from src/core/models.py: clears every field. -/
def TypingSession.reset (s : TypingSession) : TypingSession :=
  { s with
    typed_text := []
    start_time := none
    errors := 0
    is_active := false
    backspace_count := 0
    key_errors := [] }

/-- TypingSession.begin from src/core/models.py: activates the session and
records the current time. -/
def TypingSession.begin (s : TypingSession) (now : ℚ) : TypingSession :=
  { s with is_active := true, start_time := some now }

/-- TypingSession.record_key_error from src/core/models.py: bumps the tally
for the expected key, guarded by Python truthiness of the key string. -/
def TypingSession.record_key_error (s : TypingSession) (expected_key : List Char) :
    TypingSession :=
  if expected_key = [] then s
  else { s with
         key_errors :=
           dictSet s.key_errors expected_key
             (dictGet s.key_errors expected_key 0 + 1) }

/-- TypingPracticeApp._clamp_index from src/ui/main_window.py. -/
def clampIndex (value upper : ℤ) : ℤ :=
  if upper ≤ 0 then 0
  else max 0 (min value (upper - 1))

/-- Per-position highlight classification produced by
TypingPracticeApp._build_target_highlight: green span, red span, or the
gray pending span. -/
inductive CharStatus where
  | correct : CharStatus
  | incorrect : CharStatus
  | pending : CharStatus
deriving DecidableEq

/-- Loop body of _build_target_highlight: iterates over the target with an
index, comparing against the typed text and counting mismatches. -/
def highlightFrom (typed : List Char) : ℕ → List Char → List CharStatus × ℕ
  | _, [] => ([], 0)
  | index, ch :: rest =>
    let tail := highlightFrom typed (index + 1) rest
    match typed[index]? with
    | some typed_char =>
        if typed_char = ch then (CharStatus.correct :: tail.1, tail.2)
        else (CharStatus.incorrect :: tail.1, tail.2 + 1)
    | none => (CharStatus.pending :: tail.1, tail.2)

/-- TypingPracticeApp._build_target_highlight from src/ui/main_window.py,
reduced to its observable content: the per-position statuses and the
mismatch counter it returns. -/
def buildTargetHighlight (target typed : List Char) : List CharStatus × ℕ :=
  highlightFrom typed 0 target

/-- Python int() applied to a rational: truncation toward zero. -/
def intTrunc (q : ℚ) : ℤ :=
  if q < 0 then ⌈q⌉ else ⌊q⌋

/-- Core of TypingPracticeApp._calculate_wpm from src/ui/main_window.py,
taking the already-computed elapsed seconds. The minutes-positive guard of
the raw_wpm conditional is subsumed by the elapsed-nonpositive early
return, exactly as in the source. -/
def calcWpmElapsed (typed : List Char) (elapsed : ℚ) (backspace_count : ℕ)
    (penalty_factor : ℤ) : ℤ :=
  if typed.length = 0 then 0
  else if elapsed ≤ 0 then 0
  else
    let words : ℚ := (typed.length : ℚ) / 5
    let minutes : ℚ := elapsed / 60
    let raw_wpm : ℤ := intTrunc (words / minutes)
    let backspace_penalty : ℤ := (backspace_count : ℤ) * penalty_factor
    max 0 (raw_wpm - backspace_penalty)

/-- TypingPracticeApp._calculate_wpm with elapsed defaulted from the session
start time. The Python guard is a truthiness test, so a stored 0.0
timestamp is treated like an absent one. -/
def calcWpm (typed : List Char) (start_time : Option ℚ) (now : ℚ)
    (backspace_count : ℕ) (penalty_factor : ℤ) : ℤ :=
  if typed.length = 0 then 0
  else
    match start_time with
    | none => 0
    | some t =>
        if t = 0 then 0
        else calcWpmElapsed typed (now - t) backspace_count penalty_factor

/-- WPM formula exactly as the specification states it: zero on empty input
or nonpositive elapsed time, otherwise
max(0, floor((len(typed)/5)/elapsed_minutes) - backspaces * penalty). -/
def wpmSpec (typed : List Char) (elapsed : ℚ) (backspace_count : ℕ)
    (penalty_factor : ℤ) : ℤ :=
  if typed.length = 0 ∨ elapsed ≤ 0 then 0
  else max 0 (⌊((typed.length : ℚ) / 5) / (elapsed / 60)⌋ -
        (backspace_count : ℤ) * penalty_factor)

/-- TypingPracticeApp._calculate_accuracy from src/ui/main_window.py. The
errors argument is session.errors, which update_display sets to the
mismatch count of _build_target_highlight. -/
def calcAccuracy (typed target : List Char) (errors : ℕ) (backspace_count : ℕ)
    (backspace_weight : ℚ) : ℚ :=
  if typed.length = 0 then 100
  else
    let extra_errors : ℚ := max ((typed.length : ℚ) - (target.length : ℚ)) 0
    let backspace_errors : ℚ := (backspace_count : ℚ) * backspace_weight
    let total_errors : ℚ := (errors : ℚ) + extra_errors + backspace_errors
    let correct : ℚ := max ((typed.length : ℚ) - total_errors) 0
    (correct / (typed.length : ℚ)) * 100

/-- Accuracy formula exactly as the specification states it. -/
def accuracySpec (typed target : List Char) (mismatch_count : ℕ)
    (backspace_count : ℕ) (backspace_weight : ℚ) : ℚ :=
  if typed.length = 0 then 100
  else
    (max ((typed.length : ℚ) -
        ((mismatch_count : ℚ) + max ((typed.length : ℚ) - (target.length : ℚ)) 0 +
          (backspace_count : ℚ) * backspace_weight)) 0 /
      (typed.length : ℚ)) * 100

/-- History cap from src/core/persistence.py (ProgressStore.MAX_HISTORY_SIZE). -/
def MAX_HISTORY_SIZE : ℕ := 100

/-- ProgressStore.add_session_record from src/core/persistence.py: append the
record, then trim to the last MAX_HISTORY_SIZE entries (the Python slice
history[-MAX_HISTORY_SIZE:]). -/
def add_session_record {α : Type} (history : List α) (record : α) : List α :=
  let h := history ++ [record]
  if MAX_HISTORY_SIZE < h.length then h.drop (h.length - MAX_HISTORY_SIZE) else h

/-- Application state relevant to the keystroke flow of
src/ui/main_window.py: the session, the text-edit content, the read-only
lock set by on_completion, the tracked previous length, and a ghost
counter of on_completion invocations. -/
structure AppState where
  session : TypingSession
  inputText : List Char
  readOnly : Bool
  completions : ℕ
  prevTypedLength : ℕ
deriving DecidableEq

/-- State effect of TypingPracticeApp.on_completion from
src/ui/main_window.py: final metrics are computed and a SessionRecord is
emitted (pure reads, left implicit), the input is made read-only, and a
2000 ms unlock callback is scheduled (modelled by the unlock event).
The ghost counter records the invocation. -/
def onCompletion (s : AppState) : AppState :=
  { s with readOnly := true, completions := s.completions + 1 }

/-- TypingPracticeApp.on_text_changed from src/ui/main_window.py: sync the
session typed text from the widget, begin the session on the first
character, refresh the mismatch count through update_display /
_build_target_highlight, track the previous length, and fire
on_completion exactly when the typed text equals the non-empty target. -/
def onTextChanged (target : List Char) (now : ℚ) (s : AppState) : AppState :=
  let sess0 := { s.session with typed_text := s.inputText }
  let sess1 :=
    if sess0.is_active = false ∧ sess0.typed_text ≠ [] then sess0.begin now else sess0
  let sess2 := { sess1 with errors := (buildTargetHighlight target sess1.typed_text).2 }
  let s2 := { s with session := sess2, prevTypedLength := sess2.typed_text.length }
  if sess2.typed_text = target ∧ target ≠ [] then onCompletion s2 else s2

/-- Discrete events delivered to the practice screen: a printable key, a
backspace key, the timed unlock callback scheduled by on_completion, and
the explicit reset action (reset_exercise). -/
inductive Event where
  | typeChar : Char → Event
  | backspace : Event
  | unlock : Event
  | reset : Event
deriving DecidableEq

/-- One event of the keystroke flow. A printable key appends to the widget
when it is not read-only, firing on_text_changed. A backspace first runs
TypingPracticeApp.eventFilter: under strict mode it is consumed with only
a visual flash; otherwise the filter increments backspace_count whenever
the session is active and the typed text is non-empty, after which the
widget applies the deletion (dropping the final character) unless it is
read-only or empty, firing on_text_changed on an actual change. The
unlock event is _unlock_text_input; reset is reset_exercise, which clears
the widget with signals blocked and resets the session. -/
def step (strict : Bool) (target : List Char) (now : ℚ) (s : AppState) :
    Event → AppState
  | Event.typeChar c =>
      if s.readOnly then s
      else onTextChanged target now { s with inputText := s.inputText ++ [c] }
  | Event.backspace =>
      if strict then s
      else
        let sess :=
          if s.session.is_active = true ∧ s.session.typed_text ≠ [] then
            { s.session with backspace_count := s.session.backspace_count + 1 }
          else s.session
        let s1 := { s with session := sess }
        if s1.readOnly ∨ s1.inputText = [] then s1
        else onTextChanged target now { s1 with inputText := s1.inputText.dropLast }
  | Event.unlock => { s with readOnly := false }
  | Event.reset =>
      { s with
        session := s.session.reset
        inputText := []
        readOnly := false
        prevTypedLength := 0 }

/-- Folds a list of events through the step function. -/
def runTrace (strict : Bool) (target : List Char) (now : ℚ) (s : AppState) :
    List Event → AppState
  | [] => s
  | e :: rest => runTrace strict target now (step strict target now s e) rest

/-- Fresh screen state: default session, empty widget, input enabled. -/
def initState : AppState :=
  { session := TypingSession.init
    inputText := []
    readOnly := false
    completions := 0
    prevTypedLength := 0 }

/-- Invariant relating the completion counter to the input lock: at most one
completion has fired, and if one has fired the input is still read-only. -/
def LockInv (s : AppState) : Prop :=
  s.completions ≤ 1 ∧ (s.completions = 1 → s.readOnly = true)

lemma getElem?_some_lt {l : List Char} {i : ℕ} {a : Char} (h : l[i]? = some a) :
    i < l.length := by
  by_contra hc
  rw [List.getElem?_eq_none (Nat.le_of_not_lt hc)] at h
  exact Option.noConfusion h

lemma highlightFrom_snd_le_target (typed : List Char) (i : ℕ) (target : List Char) :
    (highlightFrom typed i target).2 ≤ target.length := by
  induction target generalizing i with
  | nil => exact Nat.le_refl 0
  | cons ch rest ih =>
    unfold highlightFrom
    dsimp only
    cases hg : typed[i]? with
    | none => exact Nat.le_succ_of_le (ih (i + 1))
    | some tc =>
      by_cases he : tc = ch
      · simp only [he, if_pos rfl]
        exact Nat.le_succ_of_le (ih (i + 1))
      · simp only [if_neg he]
        exact Nat.succ_le_succ (ih (i + 1))

lemma highlightFrom_snd_le_typed (typed : List Char) (i : ℕ) (target : List Char) :
    (highlightFrom typed i target).2 ≤ typed.length - i := by
  induction target generalizing i with
  | nil => exact Nat.zero_le _
  | cons ch rest ih =>
    unfold highlightFrom
    dsimp only
    cases hg : typed[i]? with
    | none =>
      exact le_trans (ih (i + 1)) (Nat.sub_le_sub_left (Nat.le_succ i) _)
    | some tc =>
      have hlt : i < typed.length := getElem?_some_lt hg
      have ht := ih (i + 1)
      by_cases he : tc = ch
      · simp only [he, if_pos rfl]
        exact le_trans ht (Nat.sub_le_sub_left (Nat.le_succ i) _)
      · simp only [if_neg he]
        omega

lemma onTextChanged_backspace_count (target : List Char) (now : ℚ) (s : AppState) :
    (onTextChanged target now s).session.backspace_count
      = s.session.backspace_count := by
  unfold onTextChanged onCompletion TypingSession.begin
  dsimp only
  split
  · split <;> rfl
  · split <;> rfl

lemma onTextChanged_key_errors (target : List Char) (now : ℚ) (s : AppState) :
    (onTextChanged target now s).session.key_errors = s.session.key_errors := by
  unfold onTextChanged onCompletion TypingSession.begin
  dsimp only
  split
  · split <;> rfl
  · split <;> rfl

lemma onTextChanged_completions (target : List Char) (now : ℚ) (s : AppState) :
    ((onTextChanged target now s).completions = s.completions ∧
      (onTextChanged target now s).readOnly = s.readOnly) ∨
    ((onTextChanged target now s).completions = s.completions + 1 ∧
      (onTextChanged target now s).readOnly = true) := by
  unfold onTextChanged onCompletion
  dsimp only
  split <;> split
  all_goals first
    | exact Or.inr ⟨rfl, rfl⟩
    | exact Or.inl ⟨rfl, rfl⟩

lemma LockInv_completions_zero {s : AppState} (h : LockInv s)
    (hro : s.readOnly ≠ true) : s.completions = 0 := by
  rcases Nat.le_one_iff_eq_zero_or_eq_one.mp h.1 with h0 | h1
  · exact h0
  · exact absurd (h.2 h1) hro

lemma LockInv_of_onTextChanged {target : List Char} {now : ℚ} {s : AppState}
    (h : s.completions = 0) : LockInv (onTextChanged target now s) := by
  rcases onTextChanged_completions target now s with ⟨hc, _⟩ | ⟨hc, hr⟩
  · rw [LockInv, hc, h]
    exact ⟨Nat.zero_le 1, fun hx => absurd hx (by omega)⟩
  · rw [LockInv, hc, h]
    exact ⟨Nat.le_refl 1, fun _ => hr⟩

lemma step_LockInv (strict : Bool) (target : List Char) (now : ℚ) (s : AppState)
    (e : Event) (hu : e ≠ Event.unlock) (hr : e ≠ Event.reset) (h : LockInv s) :
    LockInv (step strict target now s e) := by
  cases e with
  | unlock => exact absurd rfl hu
  | reset => exact absurd rfl hr
  | typeChar c =>
    by_cases hro : s.readOnly = true
    · simpa [step, hro] using h
    · rw [step, if_neg hro]
      exact LockInv_of_onTextChanged (LockInv_completions_zero h hro)
  | backspace =>
    rw [step]
    by_cases hs : strict = true
    · simpa [hs] using h
    · rw [if_neg hs]
      dsimp only
      split
      · exact h
      · rename_i hcond
        have hro : s.readOnly ≠ true := fun hx => hcond (Or.inl hx)
        exact LockInv_of_onTextChanged (LockInv_completions_zero h hro)

lemma runTrace_LockInv (strict : Bool) (target : List Char) (now : ℚ)
    (trace : List Event) (s : AppState) (h : LockInv s)
    (hta : ∀ e ∈ trace, e ≠ Event.unlock ∧ e ≠ Event.reset) :
    LockInv (runTrace strict target now s trace) := by
  induction trace generalizing s with
  | nil => exact h
  | cons e rest ih =>
    have he := hta e (List.mem_cons_self e rest)
    exact ih (step strict target now s e)
      (step_LockInv strict target now s e he.1 he.2 h)
      (fun x hx => hta x (List.mem_cons_of_mem e hx))

lemma step_backspace_count_mono (strict : Bool) (target : List Char) (now : ℚ)
    (s : AppState) (e : Event) (hr : e ≠ Event.reset) :
    s.session.backspace_count ≤ (step strict target now s e).session.backspace_count := by
  cases e with
  | reset => exact absurd rfl hr
  | unlock => exact Nat.le_refl _
  | typeChar c =>
    rw [step]
    split
    · exact Nat.le_refl _
    · rw [onTextChanged_backspace_count]
  | backspace =>
    rw [step]
    split
    · exact Nat.le_refl _
    · dsimp only
      split
      · split
        · exact Nat.le_succ _
        · exact Nat.le_refl _
      · rw [onTextChanged_backspace_count]
        dsimp only
        split
        · exact Nat.le_succ _
        · exact Nat.le_refl _

lemma dictGet_dictSet (m : List (List Char × ℕ)) (k : List Char) (v : ℕ) :
    dictGet (dictSet m k v) k 0 = v := by
  induction m with
  | nil => simp [dictSet, dictGet]
  | cons p rest ih =>
    by_cases he : p.1 = k
    · simp [dictSet, dictGet, he]
    · simpa [dictSet, dictGet, he] using ih

lemma record_key_error_bumps (s : TypingSession) (k : List Char) (hk : k ≠ []) :
    dictGet (s.record_key_error k).key_errors k 0
      = dictGet s.key_errors k 0 + 1 := by
  rw [TypingSession.record_key_error, if_neg hk]
  exact dictGet_dictSet _ _ _

/-- Claim C1, counterexample to the statement as given: within a single
attempt (the session is never reset and stays active throughout), after
completion fires on the target ab, the timed unlock re-enables input, and
deleting one character and retyping it fires on_completion a second
time — the completion counter reaches 2. -/
theorem claim1_counterexample :
    (runTrace false ['a', 'b'] 1 initState
        [Event.typeChar 'a', Event.typeChar 'b', Event.unlock, Event.backspace,
          Event.typeChar 'b']).completions = 2 ∧
    Event.reset ∉
      ([Event.typeChar 'a', Event.typeChar 'b', Event.unlock, Event.backspace,
        Event.typeChar 'b'] : List Event) ∧
    (runTrace false ['a', 'b'] 1 initState
        [Event.typeChar 'a', Event.typeChar 'b', Event.unlock, Event.backspace,
          Event.typeChar 'b']).session.is_active = true := by
  decide

/-- Claim C1, amended: completion cannot fire a second time while the
post-completion input lock is still in effect. Along any event trace from
a fresh attempt containing no unlock callback and no reset, on_completion
is invoked at most once: in particular, deleting one character and
retyping it after completion does not re-trigger it, because the widget
is read-only until the unlock fires. -/
theorem claim1_completion_once_until_unlock (strict : Bool) (target : List Char)
    (now : ℚ) (trace : List Event)
    (h : ∀ e ∈ trace, e ≠ Event.unlock ∧ e ≠ Event.reset) :
    (runTrace strict target now initState trace).completions ≤ 1 :=
  (runTrace_LockInv strict target now trace initState
    ⟨Nat.zero_le 1, fun hc => absurd hc (by decide)⟩ h).1

/-- Claim C1, witness: typing the target ab, then backspacing and retyping
before the unlock callback fires, yields exactly one completion. -/
theorem claim1_witness :
    (runTrace false ['a', 'b'] 1 initState
        [Event.typeChar 'a', Event.typeChar 'b', Event.backspace,
          Event.typeChar 'b']).completions ≤ 1 :=
  claim1_completion_once_until_unlock false ['a', 'b'] 1
    [Event.typeChar 'a', Event.typeChar 'b', Event.backspace, Event.typeChar 'b']
    (by decide)

/-- Claim C2: the specification says a mismatch at the just-typed position
increments key_errors for the expected character, but no keystroke ever
changes key_errors: on_text_changed never calls record_key_error, so the
per-key tally stays empty for the whole attempt. Concretely, typing x
against the target ab is a mismatch at the typed position (the diff
counts one mismatch) yet key_errors remains empty, where the claim
requires a tally of one against the expected character a. -/
theorem claim2_key_errors_never_recorded :
    (∀ (strict : Bool) (target : List Char) (now : ℚ) (s : AppState) (c : Char),
        (step strict target now s (Event.typeChar c)).session.key_errors
          = s.session.key_errors) ∧
    (∀ (strict : Bool) (target : List Char) (now : ℚ) (s : AppState),
        (step strict target now s Event.backspace).session.key_errors
          = s.session.key_errors) ∧
    (runTrace false ['a', 'b'] 1 initState
        [Event.typeChar 'x']).session.key_errors = [] ∧
    (buildTargetHighlight ['a', 'b'] ['x']).2 = 1 := by
  refine ⟨?_, ?_, by decide, by decide⟩
  · intro strict target now s c
    rw [step]
    split
    · rfl
    · rw [onTextChanged_key_errors]
  · intro strict target now s
    rw [step]
    split
    · rfl
    · dsimp only
      split
      · split <;> rfl
      · rw [onTextChanged_key_errors]
        split <;> rfl

/-- Claim C3: the WPM calculation returns 0 when the typed text is empty,
when the start time is unset (absent, or the Python-falsy 0.0 timestamp),
or when the elapsed time is nonpositive; otherwise it equals
max(0, floor((len(typed)/5)/elapsed_minutes) - backspaces * penalty), and
the result is non-negative in every case. -/
theorem claim3_wpm_formula (typed : List Char) (st : Option ℚ) (now : ℚ)
    (bs : ℕ) (pf : ℤ) :
    0 ≤ calcWpm typed st now bs pf ∧
    (typed = [] → calcWpm typed st now bs pf = 0) ∧
    (st = none → calcWpm typed st now bs pf = 0) ∧
    (st = some 0 → calcWpm typed st now bs pf = 0) ∧
    (∀ t : ℚ, st = some t → now - t ≤ 0 → calcWpm typed st now bs pf = 0) ∧
    (∀ t : ℚ, st = some t → t ≠ 0 →
      calcWpm typed st now bs pf = wpmSpec typed (now - t) bs pf) := by
  have hcore : ∀ elapsed : ℚ,
      calcWpmElapsed typed elapsed bs pf = wpmSpec typed elapsed bs pf := by
    intro elapsed
    rw [calcWpmElapsed, wpmSpec]
    by_cases h0 : typed.length = 0
    · simp [h0]
    · by_cases he : elapsed ≤ 0
      · simp [h0, he]
      · rw [if_neg h0, if_neg he, if_neg (by tauto)]
        dsimp only
        have hq : ¬((typed.length : ℚ) / 5 / (elapsed / 60) < 0) := by
          push_neg
          have hel : (0 : ℚ) < elapsed := lt_of_not_le he
          positivity
        rw [intTrunc, if_neg hq]
  have hnn : ∀ elapsed : ℚ, 0 ≤ calcWpmElapsed typed elapsed bs pf := by
    intro elapsed
    rw [calcWpmElapsed]
    split
    · exact le_refl 0
    · split
      · exact le_refl 0
      · exact le_max_left 0 _
  refine ⟨?_, ?_, ?_, ?_, ?_, ?_⟩
  · cases st with
    | none => by_cases h0 : typed.length = 0 <;> simp [calcWpm, h0]
    | some t =>
      by_cases h0 : typed.length = 0
      · simp [calcWpm, h0]
      · by_cases ht0 : t = 0
        · simp [calcWpm, h0, ht0]
        · simpa [calcWpm, h0, ht0] using hnn (now - t)
  · intro h
    subst h
    simp [calcWpm]
  · intro h
    subst h
    by_cases h0 : typed.length = 0 <;> simp [calcWpm, h0]
  · intro h
    subst h
    by_cases h0 : typed.length = 0 <;> simp [calcWpm, h0]
  · intro t ht he
    subst ht
    by_cases h0 : typed.length = 0
    · simp [calcWpm, h0]
    · by_cases ht0 : t = 0
      · simp [calcWpm, h0, ht0]
      · rw [calcWpm, if_neg h0]
        rw [if_neg ht0, calcWpmElapsed, if_neg h0, if_pos he]
  · intro t ht ht0
    subst ht
    by_cases h0 : typed.length = 0
    · have hnil : typed = [] := List.length_eq_zero.mp h0
      subst hnil
      simp [calcWpm, wpmSpec]
    · rw [calcWpm, if_neg h0]
      rw [if_neg ht0]
      exact hcore (now - t)

/-- Claim C3, witness: the scenario of the specification — target cat typed
in 6 seconds with no backspaces — evaluates through both the code-side
calculation and the specification formula. -/
theorem claim3_witness :
    calcWpm ['c', 'a', 't'] (some 1) 7 0 3 = wpmSpec ['c', 'a', 't'] 6 0 3 ∧
    calcWpm ['c', 'a', 't'] none 7 0 3 = 0 := by
  constructor
  · have h := (claim3_wpm_formula ['c', 'a', 't'] (some 1) 7 0 3).2.2.2.2.2 1 rfl
      (by norm_num)
    have h6 : (7 : ℚ) - 1 = 6 := by norm_num
    rw [h6] at h
    exact h
  · exact (claim3_wpm_formula ['c', 'a', 't'] none 7 0 3).2.2.1 rfl

/-- Claim C4: the accuracy calculation returns 100 when the typed text is
empty, and otherwise equals the specification formula
(max(len(typed) - (mismatches + max(len(typed)-len(target), 0) +
backspaces * weight), 0) / len(typed)) * 100. There is no clamp above 100
beyond the floor on the correct count: with a negative weight the result
exceeds 100. The cbt-versus-cat scenario, with the mismatch count coming
from the diff computation, gives 200/3. -/
theorem claim4_accuracy_formula :
    (∀ (typed target : List Char) (e b : ℕ) (w : ℚ),
        calcAccuracy typed target e b w = accuracySpec typed target e b w) ∧
    (∀ (target : List Char) (e b : ℕ) (w : ℚ),
        calcAccuracy [] target e b w = 100) ∧
    calcAccuracy ['c', 'b', 't'] ['c', 'a', 't']
      (buildTargetHighlight ['c', 'a', 't'] ['c', 'b', 't']).2 0 (1 / 2)
      = 200 / 3 ∧
    (100 : ℚ) < calcAccuracy ['a'] ['a'] 0 1 (-1) := by
  refine ⟨?_, ?_, ?_, ?_⟩
  · intro typed target e b w
    rw [calcAccuracy, accuracySpec]
  · intro target e b w
    rw [calcAccuracy]
    rfl
  · have hm : (buildTargetHighlight ['c', 'a', 't'] ['c', 'b', 't']).2 = 1 := by
      decide
    rw [hm]
    norm_num [calcAccuracy, max_def]
  · norm_num [calcAccuracy, max_def]

/-- Claim C5: a backspace keystroke delivered under strict mode is consumed
by the eventFilter and discarded entirely; the typed text and the
backspace count — indeed the whole application state — are unchanged, and
only the transient warning flash is emitted. -/
theorem claim5_strict_backspace_discarded (target : List Char) (now : ℚ)
    (s : AppState) :
    (step true target now s Event.backspace).session.typed_text
      = s.session.typed_text ∧
    (step true target now s Event.backspace).session.backspace_count
      = s.session.backspace_count ∧
    step true target now s Event.backspace = s :=
  ⟨rfl, rfl, rfl⟩

/-- Claim C6: with strict mode disabled, a backspace keystroke increments
backspace_count by exactly one precisely when the session is active and
the typed text is non-empty at the time of the keystroke, and leaves it
unchanged otherwise; moreover no event other than reset ever decreases
backspace_count, so the counter never decreases within an attempt. -/
theorem claim6_backspace_count_increment (target : List Char) (now : ℚ)
    (s : AppState) :
    (s.session.is_active = true ∧ s.session.typed_text ≠ [] →
      (step false target now s Event.backspace).session.backspace_count
        = s.session.backspace_count + 1) ∧
    (¬(s.session.is_active = true ∧ s.session.typed_text ≠ []) →
      (step false target now s Event.backspace).session.backspace_count
        = s.session.backspace_count) ∧
    (∀ (strict : Bool) (e : Event), e ≠ Event.reset →
      s.session.backspace_count
        ≤ (step strict target now s e).session.backspace_count) := by
  refine ⟨?_, ?_, fun strict e hr => step_backspace_count_mono strict target now s e hr⟩
  · intro h
    rw [step]
    rw [if_neg (by simp)]
    dsimp only
    rw [if_pos h]
    split
    · rfl
    · rw [onTextChanged_backspace_count]
  · intro h
    rw [step]
    rw [if_neg (by simp)]
    dsimp only
    rw [if_neg h]
    split
    · rfl
    · rw [onTextChanged_backspace_count]

/-- Claim C6, witness: in the state reached by typing a single character of
the target (session active, typed text non-empty), a non-strict backspace
increments the counter from 0 to 1; in the fresh state (inactive, empty)
it stays 0; and a character keystroke never lowers it. -/
theorem claim6_witness :
    (step false ['a', 'b'] 1
        (runTrace false ['a', 'b'] 1 initState [Event.typeChar 'a'])
        Event.backspace).session.backspace_count
      = (runTrace false ['a', 'b'] 1 initState
          [Event.typeChar 'a']).session.backspace_count + 1 ∧
    (step false ['a', 'b'] 1 initState Event.backspace).session.backspace_count
      = initState.session.backspace_count ∧
    initState.session.backspace_count
      ≤ (step false ['a', 'b'] 1 initState (Event.typeChar 'a')).session.backspace_count := by
  refine ⟨?_, ?_, ?_⟩
  · exact (claim6_backspace_count_increment ['a', 'b'] 1
      (runTrace false ['a', 'b'] 1 initState [Event.typeChar 'a'])).1 (by decide)
  · exact (claim6_backspace_count_increment ['a', 'b'] 1 initState).2.1 (by decide)
  · exact (claim6_backspace_count_increment ['a', 'b'] 1 initState).2.2 false
      (Event.typeChar 'a') (by decide)

/-- Claim C7: the mismatch counter of the diff computation is bounded by the
length of the typed text and by the length of the target: mismatches are
counted only at target positions that have been typed, and characters
typed beyond the target are not counted. -/
theorem claim7_mismatch_bound (target typed : List Char) :
    (buildTargetHighlight target typed).2 ≤ min typed.length target.length := by
  refine le_min ?_ (highlightFrom_snd_le_target typed 0 target)
  simpa using highlightFrom_snd_le_typed typed 0 target

/-- Claim C8: appending a record to a history already holding exactly 100
records evicts the oldest record: the result is the original list without
its head, followed by the new record — the most recent 100 records in
their original order — and its length is again 100. -/
theorem claim8_history_eviction {α : Type} (history : List α) (record : α)
    (h : history.length = 100) :
    add_session_record history record = history.drop 1 ++ [record] ∧
    (add_session_record history record).length = 100 := by
  have hlen : (history ++ [record]).length = 101 := by simp [h]
  have hcond : MAX_HISTORY_SIZE < (history ++ [record]).length := by
    rw [hlen, MAX_HISTORY_SIZE]
    omega
  constructor
  · rw [add_session_record]
    rw [if_pos hcond, hlen]
    show (history ++ [record]).drop (101 - MAX_HISTORY_SIZE) = _
    rw [MAX_HISTORY_SIZE]
    exact List.drop_append_of_le_length (by omega)
  · rw [add_session_record]
    rw [if_pos hcond, hlen]
    simp [MAX_HISTORY_SIZE, h]

/-- Claim C8, witness: appending the value 100 to the 100-element history
0, 1, ..., 99 drops the 0 and keeps the most recent 100 values in order. -/
theorem claim8_witness :
    add_session_record (List.range 100) 100 = (List.range 100).drop 1 ++ [100] ∧
    (add_session_record (List.range 100) 100).length = 100 :=
  claim8_history_eviction (List.range 100) 100 (by simp)

/-- Claim C9: the index clamp used when loading persisted lesson and text
indices returns 0 when the list length bound is nonpositive, and otherwise
a value in the range 0 to upper - 1, so loading an out-of-range index
never fails. -/
theorem claim9_clamp_index_range (value upper : ℤ) :
    (upper ≤ 0 → clampIndex value upper = 0) ∧
    (0 < upper → 0 ≤ clampIndex value upper ∧ clampIndex value upper ≤ upper - 1) := by
  constructor
  · intro h
    rw [clampIndex, if_pos h]
  · intro h
    rw [clampIndex, if_neg (not_le.mpr h)]
    exact ⟨le_max_left 0 _, max_le (by omega) (min_le_right value (upper - 1))⟩

/-- Claim C9, witness: a negative bound clamps to 0, and a persisted index
of 99 against a 3-element lesson list lands in the valid range. -/
theorem claim9_witness :
    clampIndex 5 (-2) = 0 ∧
    (0 ≤ clampIndex 99 3 ∧ clampIndex 99 3 ≤ 3 - 1) :=
  ⟨(claim9_clamp_index_range 5 (-2)).1 (by norm_num),
    (claim9_clamp_index_range 99 3).2 (by norm_num)⟩

/-- Claim C10: reset leaves any session equal to a freshly constructed one —
typed text empty, start time unset, errors 0, inactive, backspace count 0,
key-error tally empty — and is therefore idempotent. -/
theorem claim10_reset_idempotent (s : TypingSession) :
    s.reset = TypingSession.init ∧
    s.reset.reset = s.reset ∧
    s.reset.typed_text = [] ∧
    s.reset.start_time = none ∧
    s.reset.errors = 0 ∧
    s.reset.is_active = false ∧
    s.reset.backspace_count = 0 ∧
    s.reset.key_errors = [] :=
  ⟨rfl, rfl, rfl, rfl, rfl, rfl, rfl, rfl⟩

end PyTyping
